import Mathlib

/-!
Verification development for the SweetDisplayEncoder display pipeline
(src/mvisor/sweet/display_encoder.cc).

The pipeline state and its operations are embedded shallowly:

* the screen bitmap is a byte memory `Int → Nat` indexed by byte offset
  from the start of `screen_bitmap_` (pointer arithmetic in the source is
  integer arithmetic, so offsets are modelled as integers);
* `RenderPartial` becomes the pure blit `RenderPartialBitmap` built from
  the two nested while loops `blitSegs` / `blitRows`; the `MV_ASSERT`
  bound check is recorded in the `ok` flag of the result (a failed check
  aborts the process, so the model stops copying at that point);
* the producer operations `Start`, `Stop`, `Render`, `ForceKeyframe` and
  the worker loop body `EncodeProcessTick` / `Encode` are state
  transformers on `EncoderState`; the x264 call is an oracle parameter
  giving the size returned by `x264_encoder_encode` for that tick;
* `ConvertSlices` keeps the external libyuv routines abstract: they are
  function parameters applied to abstract tiles, exactly following the
  if / else-if dispatch of the source (which has no final else branch).
-/

/-- Screen geometry fixed at construction time: `screen_width_`,
`screen_height_`, `screen_bpp_`, `screen_stride_`. -/
structure ScreenConfig where
  width : Nat
  height : Nat
  bpp : Nat
  stride : Nat
deriving Repr, DecidableEq

/-- The rectangle part of `EncodeSlice` (the owned yuv tile is modelled
separately where a claim needs it). -/
structure EncodeSlice where
  x : Nat
  y : Nat
  width : Nat
  height : Nat
deriving Repr, DecidableEq

/-- Frame type hint submitted to the codec: `X264_TYPE_KEYFRAME` or
`X264_TYPE_AUTO`. -/
inductive FrameType where
  | keyframe
  | auto
deriving Repr, DecidableEq

/-- Modelled from the spec: the `DisplayPartialBitmap` structure is part of
this repository but its declaration is not under src/ (only the consumer
`SweetDisplayEncoder::RenderPartial` is).  Per spec section 3 a partial
carries a dirty rectangle x, y, width, height in pixels, a source stride in
bytes, a flip flag for bottom-up row order, and an ordered list of I/O
segments whose concatenation supplies the pixels in source-stride-sized
rows.  Coordinates are machine integers fed into pointer arithmetic, so x
and y are modelled as integers; the size fields are naturals.  Each segment
is modelled as its list of bytes (iov_base contents), whose length is
iov_len. -/
structure DisplayPartialBitmap where
  x : Int
  y : Int
  width : Nat
  height : Nat
  stride : Nat
  flip : Bool
  vector : List (List Nat)

/-- The mutable fields of `SweetDisplayEncoder` the claims touch: the
screen bitmap bytes, the pending slice queue, the `started_`,
`force_keyframe_` flags, whether `output_callback_` is installed, and the
working picture fields `i_pts`, `i_type` together with the last
`output_nal_size_`. -/
structure EncoderState where
  mem : Int → Nat
  slices : List EncodeSlice
  started : Bool
  force_keyframe : Bool
  callback_installed : Bool
  pts : Int
  i_type : FrameType
  output_nal_size : Int

/-- `SweetDisplayEncoder::CreateEncodeSlice`: align left and right to 16,
top and bottom to 2, clamp right and bottom to the screen, then queue the
rectangle.  Arguments are in source order (top, left, bottom, right). -/
def CreateEncodeSlice (c : ScreenConfig) (top left bottom right : Nat) : EncodeSlice :=
  let width_alignment := 16
  let left := if left % width_alignment ≠ 0 then left - left % width_alignment else left
  let right := if right % width_alignment ≠ 0 then right + (width_alignment - right % width_alignment) else right
  let height_alignment := 2
  let top := if top % height_alignment ≠ 0 then top - top % height_alignment else top
  let bottom := if bottom % height_alignment ≠ 0 then bottom + (height_alignment - bottom % height_alignment) else bottom
  let right := if right > c.width then c.width else right
  let bottom := if bottom > c.height then c.height else bottom
  { x := left, y := top, width := right - left, height := bottom - top }

/-- One `memcpy(dst, src, len)` where src points at offset `srcOff` of
segment `seg`: bytes `[dst, dst + len)` of the destination take the
corresponding segment bytes, everything else keeps its old value. -/
def writeRow (mem : Int → Nat) (dst : Int) (seg : List Nat) (srcOff len : Nat) : Int → Nat :=
  fun a => if dst ≤ a ∧ a < dst + (len : Int) then seg.getD (srcOff + (a - dst).toNat) 0 else mem a

/-- Result of a blit: the memory, the destination cursor, the remaining
line count, and whether every `MV_ASSERT(dst + linesize <= dst_end)` check
passed (a failed check aborts the process, so copying stops there). -/
structure BlitResult where
  mem : Int → Nat
  dst : Int
  lines : Nat
  ok : Bool

/-- Inner while loop of `RenderPartial`: copy up to `copyLines` rows of the
current segment while `lines > 0`, advancing the source by `stride` and the
destination by `dstStride` per row, checking the upper blit bound before
each row. -/
def blitRows (dstStride dstEnd : Int) (linesize stride : Nat) (seg : List Nat) :
    Nat → Nat → (Int → Nat) → Int → Nat → BlitResult
  | 0, _, mem, dst, lines => ⟨mem, dst, lines, true⟩
  | _ + 1, _, mem, dst, 0 => ⟨mem, dst, 0, true⟩
  | copyLines + 1, srcOff, mem, dst, lines + 1 =>
      if dst + (linesize : Int) ≤ dstEnd then
        blitRows dstStride dstEnd linesize stride seg copyLines (srcOff + stride)
          (writeRow mem dst seg srcOff linesize) (dst + dstStride) lines
      else ⟨mem, dst, lines + 1, false⟩

/-- Outer while loop of `RenderPartial`: walk the segment list while rows
remain, treating each segment as `iov_len / stride` whole source rows. -/
def blitSegs (dstStride dstEnd : Int) (linesize stride : Nat) :
    List (List Nat) → (Int → Nat) → Int → Nat → BlitResult
  | [], mem, dst, lines => ⟨mem, dst, lines, true⟩
  | seg :: rest, mem, dst, lines =>
      if lines = 0 then ⟨mem, dst, lines, true⟩
      else
        let r := blitRows dstStride dstEnd linesize stride seg (seg.length / stride) 0 mem dst lines
        if r.ok then blitSegs dstStride dstEnd linesize stride rest r.mem r.dst r.lines
        else r

/-- `SweetDisplayEncoder::RenderPartial`: compute the destination cursor
(bottom row first and negative stride when flipped), then run the segment
walk.  Addresses are byte offsets from `screen_bitmap_`. -/
def RenderPartialBitmap (c : ScreenConfig) (mem : Int → Nat) (p : DisplayPartialBitmap) : BlitResult :=
  let bpb : Nat := c.bpp >>> 3
  let dstEnd : Int := (c.stride * c.height : Nat)
  let dst0 : Int :=
    if p.flip then (c.stride : Int) * (p.y + (p.height : Int) - 1) + p.x * (bpb : Int)
    else (c.stride : Int) * p.y + p.x * (bpb : Int)
  let dstStride : Int := if p.flip then -(c.stride : Int) else (c.stride : Int)
  blitSegs dstStride dstEnd (p.width * bpb) p.stride p.vector mem dst0 p.height

/-- Loop body of `SweetDisplayEncoder::Render` for one partial: blit it
into the screen bitmap; on a failed bound check the process dies (no slice
is queued and later partials are not processed, recorded by the Bool
accumulator); otherwise, when started, queue the aligned slice for the
rectangle. -/
def RenderStep (c : ScreenConfig) (acc : EncoderState × Bool) (p : DisplayPartialBitmap) :
    EncoderState × Bool :=
  if acc.2 then
    let r := RenderPartialBitmap c acc.1.mem p
    if r.ok then
      let st := { acc.1 with mem := r.mem }
      if st.started then
        ({ st with slices := st.slices ++
            [CreateEncodeSlice c p.y.toNat p.x.toNat
              (p.y + (p.height : Int)).toNat (p.x + (p.width : Int)).toNat] }, true)
      else (st, true)
    else ({ acc.1 with mem := r.mem }, false)
  else acc

/-- `SweetDisplayEncoder::Render`: process the partials in order, then wake
the worker when the slice queue is non-empty.  Returns the new state, a
flag telling whether `encode_cv_.notify_all` was reached and called, and
whether all bound checks passed (false means the process aborted). -/
def Render (c : ScreenConfig) (s : EncoderState) (ps : List DisplayPartialBitmap) :
    EncoderState × Bool × Bool :=
  let fr := ps.foldl (RenderStep c) (s, true)
  (fr.1, (if fr.2 then !fr.1.slices.isEmpty else false, fr.2))

/-- `SweetDisplayEncoder::Start`: set started and force_keyframe, install
the callback, queue one slice covering the whole screen (source argument
order: top 0, left 0, bottom screen_height, right screen_width). -/
def Start (c : ScreenConfig) (s : EncoderState) : EncoderState :=
  { s with started := true, force_keyframe := true, callback_installed := true,
           slices := s.slices ++ [CreateEncodeSlice c 0 0 c.height c.width] }

/-- `SweetDisplayEncoder::Stop`: clear started and the callback. -/
def Stop (s : EncoderState) : EncoderState :=
  { s with started := false, callback_installed := false }

/-- `SweetDisplayEncoder::ForceKeyframe`: set the flag (the worker wakeup
has no effect on the modelled state). -/
def ForceKeyframe (s : EncoderState) : EncoderState :=
  { s with force_keyframe := true }

/-- `SweetDisplayEncoder::Encode`: advance `i_pts` by one, mark the frame
keyframe and clear the flag when `force_keyframe_` is set and auto
otherwise, then call the codec; `codecRet` is the size the codec returns
and is stored in `output_nal_size_`.  The source ends with
`if (output_nal_size_ < 0) return;`, which changes nothing. -/
def Encode (codecRet : Int) (s : EncoderState) : EncoderState :=
  let s := { s with pts := s.pts + 1 }
  let s :=
    if s.force_keyframe then { s with i_type := FrameType.keyframe, force_keyframe := false }
    else { s with i_type := FrameType.auto }
  { s with output_nal_size := codecRet }

/-- One iteration of the `EncodeProcess` worker loop after the wait, for an
undestroyed encoder: skip everything when not started; otherwise take the
queued slices as a batch (conversion and stitching leave the modelled
fields unchanged), run `Encode`, and invoke the output callback exactly
when one is installed.  Returns the new state and whether the callback was
invoked this tick. -/
def EncodeProcessTick (codecRet : Int) (s : EncoderState) : EncoderState × Bool :=
  if s.started then
    let s := { s with slices := [] }
    let s := Encode codecRet s
    (s, s.callback_installed)
  else (s, false)

/-- Run a sequence of worker ticks; the list gives the codec return value
of each tick. -/
def runTicks (rets : List Int) (s : EncoderState) : EncoderState :=
  rets.foldl (fun st r => (EncodeProcessTick r st).1) s

/-- Run a sequence of worker ticks and record the frame type submitted to
the codec on each tick. -/
def runTickTypes (rets : List Int) (s : EncoderState) : List FrameType :=
  match rets with
  | [] => []
  | r :: rest =>
      let s' := (EncodeProcessTick r s).1
      s'.i_type :: runTickTypes rest s'

/-- Apply `ForceKeyframe` a number of times in a row. -/
def applyForceKeyframe : Nat → EncoderState → EncoderState
  | 0, s => s
  | k + 1, s => ForceKeyframe (applyForceKeyframe k s)

/-- Conversion dispatch of `SweetDisplayEncoder::ConvertSlices` for one
slice tile: `libyuv::ARGBToI420` at 32 bpp, `libyuv::RGB24ToI420` at
24 bpp; the source has no further branch, so any other depth leaves the
tile as it is.  The external routines are abstract functions on tiles. -/
def convertSliceTile {α : Type} (bpp : Nat) (argbToI420 rgb24ToI420 : α → α) (t : α) : α :=
  if bpp = 32 then argbToI420 t
  else if bpp = 24 then rgb24ToI420 t
  else t

/-- `SweetDisplayEncoder::ConvertSlices` over the pending tiles.  The
second component records whether the function raised a fatal failure;
the source body contains no `MV_PANIC` or `MV_ASSERT`, so it is always
false. -/
def ConvertSlices {α : Type} (bpp : Nat) (argbToI420 rgb24ToI420 : α → α)
    (tiles : List α) : List α × Bool :=
  (tiles.map (convertSliceTile bpp argbToI420 rgb24ToI420), false)

/-- Total number of source rows supplied by a segment list, each segment
contributing `iov_len / stride` rows. -/
def rowsOf (stride : Nat) (segs : List (List Nat)) : Nat :=
  (segs.map (fun seg => seg.length / stride)).sum

/-- Destination row that source row `v` of a partial lands in: row
`y + v`, or row `y + height - 1 - v` when flipped. -/
def dstRow (p : DisplayPartialBitmap) (v : Nat) : Int :=
  if p.flip then p.y + (p.height : Int) - 1 - v else p.y + v

/-- Spec-side rounding down to a multiple of `a`. -/
def alignDown (a n : Nat) : Nat := n - n % a

/-- Spec-side rounding up to a multiple of `a`. -/
def alignUp (a n : Nat) : Nat := if n % a = 0 then n else n + (a - n % a)

/-- The slice rectangle as described by the spec sentence for claim C5:
left is x rounded down to a multiple of 16, right is x + w rounded up to a
multiple of 16 then clamped to the screen width, top is y rounded down to
a multiple of 2, bottom is y + h rounded up to a multiple of 2 then
clamped to the screen height. -/
def specAlignedSlice (c : ScreenConfig) (x y w h : Nat) : EncodeSlice :=
  let left := alignDown 16 x
  let right := min (alignUp 16 (x + w)) c.width
  let top := alignDown 2 y
  let bottom := min (alignUp 2 (y + h)) c.height
  { x := left, y := top, width := right - left, height := bottom - top }

/-- Alignment and containment actually guaranteed for every queued slice:
x is a multiple of 16, y and height are multiples of 2, the rectangle lies
within the screen, and the width is a multiple of 16 unless the right edge
was clamped to the screen width. -/
def SliceAligned (c : ScreenConfig) (sl : EncodeSlice) : Prop :=
  sl.x % 16 = 0 ∧ sl.y % 2 = 0 ∧ sl.height % 2 = 0 ∧
  sl.x + sl.width ≤ c.width ∧ sl.y + sl.height ≤ c.height ∧
  (sl.width % 16 = 0 ∨ sl.x + sl.width = c.width)

instance (c : ScreenConfig) (sl : EncodeSlice) : Decidable (SliceAligned c sl) := by
  unfold SliceAligned; infer_instance

/-- A partial whose rectangle lies within the screen. -/
def PartialInBounds (c : ScreenConfig) (p : DisplayPartialBitmap) : Prop :=
  0 ≤ p.x ∧ 0 ≤ p.y ∧ p.x + (p.width : Int) ≤ (c.width : Int) ∧
  p.y + (p.height : Int) ≤ (c.height : Int)

instance (c : ScreenConfig) (p : DisplayPartialBitmap) : Decidable (PartialInBounds c p) := by
  unfold PartialInBounds; infer_instance

/-- A fresh encoder state: blank screen bitmap, empty queue, stopped. -/
def initState : EncoderState :=
  { mem := fun _ => 0, slices := [], started := false, force_keyframe := false,
    callback_installed := false, pts := 0, i_type := FrameType.auto, output_nal_size := 0 }

/-- A started encoder with an installed callback and an empty queue. -/
def startedState : EncoderState :=
  { initState with started := true, callback_installed := true }

/-- A stopped encoder that still has one queued slice (as after `Start`
followed by `Stop` before any worker tick, or simply pending work). -/
def queuedState : EncoderState :=
  { initState with slices := [{ x := 0, y := 0, width := 16, height := 2 }] }

/-- Number of ticks in a run whose codec return was non-negative, i.e.
ticks that produced output. -/
def producedTicks (rets : List Int) : Nat :=
  (rets.filter (fun r => decide (0 ≤ r))).length

/-- A 640x480 32 bpp screen with stride 2560, as in spec scenario 1. -/
def c640 : ScreenConfig := { width := 640, height := 480, bpp := 32, stride := 2560 }

/-- The unaligned partial of spec scenario 3 and claim C5 (the segment
list is irrelevant to the queued slice, so it is empty). -/
def p5 : DisplayPartialBitmap :=
  { x := 5, y := 3, width := 10, height := 5, stride := 40, flip := false, vector := [] }

/-- An even-dimension screen whose width is not a multiple of 16. -/
def c24 : ScreenConfig := { width := 24, height := 16, bpp := 32, stride := 96 }

/-- A tiny screen for the out-of-bounds blit example: 2x4 pixels at
32 bpp, stride 8, so the screen bitmap occupies byte offsets 0..31. -/
def c10c : ScreenConfig := { width := 2, height := 4, bpp := 32, stride := 8 }

/-- A flipped partial whose computed start row precedes the buffer: with
y = -4 and height 2 the flipped start row is y + height - 1 = -3, so both
copied rows land at negative byte offsets.  One 16-byte segment supplies
the two 8-byte rows, every byte 7. -/
def p10 : DisplayPartialBitmap :=
  { x := 0, y := -4, width := 2, height := 2, stride := 8, flip := true,
    vector := [List.replicate 16 7] }

/-- A 4x4 32 bpp screen, stride 16, for the blit witness. -/
def c6c : ScreenConfig := { width := 4, height := 4, bpp := 32, stride := 16 }

/-- An in-bounds 2x2 partial at pixel (1, 1) whose single 16-byte segment
holds the bytes 100..115 in two 8-byte source rows. -/
def p6 : DisplayPartialBitmap :=
  { x := 1, y := 1, width := 2, height := 2, stride := 8, flip := false,
    vector := [(List.range 16).map (fun i => i + 100)] }

/-! ## Worker tick lemmas -/

/-- A worker tick never changes the started flag or the installed
callback. -/
theorem encodeProcessTick_preserves (r : Int) (s : EncoderState) :
    ((EncodeProcessTick r s).1).started = s.started ∧
    ((EncodeProcessTick r s).1).callback_installed = s.callback_installed := by
  by_cases hs : s.started <;> by_cases hf : s.force_keyframe <;>
    simp [EncodeProcessTick, Encode, hs, hf]

/-- A tick of a started encoder advances the presentation timestamp by
one, whatever the codec returned. -/
theorem encodeProcessTick_pts (r : Int) (s : EncoderState) (hs : s.started = true) :
    ((EncodeProcessTick r s).1).pts = s.pts + 1 := by
  by_cases hf : s.force_keyframe <;> simp [EncodeProcessTick, Encode, hs, hf]

/-- A tick of a started encoder with the force flag set submits a
keyframe and clears the flag. -/
theorem encodeProcessTick_keyframe (r : Int) (s : EncoderState)
    (hs : s.started = true) (hf : s.force_keyframe = true) :
    ((EncodeProcessTick r s).1).i_type = FrameType.keyframe ∧
    ((EncodeProcessTick r s).1).force_keyframe = false := by
  simp [EncodeProcessTick, Encode, hs, hf]

/-- A tick of a started encoder with the force flag clear submits an auto
frame and leaves the flag clear. -/
theorem encodeProcessTick_auto (r : Int) (s : EncoderState)
    (hs : s.started = true) (hf : s.force_keyframe = false) :
    ((EncodeProcessTick r s).1).i_type = FrameType.auto ∧
    ((EncodeProcessTick r s).1).force_keyframe = false := by
  simp [EncodeProcessTick, Encode, hs, hf]

/-! ## Claim C1 -/

/-- Claim C1 (code bug evidence): at a started encoder with an installed
output callback, a tick on which the codec returns the negative size -1
still reaches the callback invocation: the worker loop guards the call
only on a callback being installed, and the negative-size guard inside
Encode is a return as the last statement of the function, so it skips
nothing.  The callback is invoked with the stale nal pointer and the
stored size -1, where the claim requires no invocation at all. -/
theorem encode_tick_negative_size_still_invokes_callback :
    (EncodeProcessTick (-1) startedState).2 = true ∧
    (EncodeProcessTick (-1) startedState).1.output_nal_size = -1 := by
  exact ⟨rfl, rfl⟩

/-! ## Claim C3 -/

/-- Claim C3 (counterexample): a single tick whose codec return is -1
produces no output, yet the presentation timestamp still advances, so the
timestamp does not equal its initial value plus the number of productive
ticks. -/
theorem pts_advances_on_unproductive_tick :
    (runTicks [(-1 : Int)] startedState).pts ≠
      startedState.pts + (producedTicks [(-1 : Int)] : Int) := by
  decide

/-- Claim C3 (amended): the presentation timestamp is incremented
unconditionally at the top of Encode, so after any run of worker ticks of
a started encoder it equals its initial value plus the total number of
ticks, whether or not the codec produced output on them. -/
theorem runTicks_pts_advances_every_tick (rets : List Int) (s : EncoderState)
    (hs : s.started = true) :
    (runTicks rets s).pts = s.pts + rets.length := by
  induction rets generalizing s with
  | nil => simp [runTicks]
  | cons r rest ih =>
      have hpre := (encodeProcessTick_preserves r s).1
      have h1 : ((EncodeProcessTick r s).1).started = true := by rw [hpre, hs]
      have : runTicks (r :: rest) s = runTicks rest (EncodeProcessTick r s).1 := by
        simp [runTicks]
      rw [this, ih _ h1, encodeProcessTick_pts r s hs]
      simp only [List.length_cons]
      push_cast
      ring

/-- Claim C3 (witness): two ticks, the second unproductive, advance the
timestamp by two. -/
theorem runTicks_pts_witness :
    startedState.started = true ∧
    (runTicks [3, -1] startedState).pts = startedState.pts + ([3, -1] : List Int).length :=
  ⟨rfl, runTicks_pts_advances_every_tick [3, -1] startedState rfl⟩

/-! ## Claim C4 -/

/-- Claim C4 (counterexample): running the conversion at 16 bits per pixel
raises no fatal failure and leaves the tile exactly as it was, because the
source dispatch has branches only for 32 and 24 bpp and no final else. -/
theorem convertSlices_unsupported_bpp_no_abort :
    (ConvertSlices 16 (fun t : Nat => t + 1) (fun t => t + 2) [5]).2 = false ∧
    (ConvertSlices 16 (fun t : Nat => t + 1) (fun t => t + 2) [5]).1 = [5] := by
  exact ⟨rfl, rfl⟩

/-- Claim C4 (amended): for any bits-per-pixel value other than 32 and 24,
ConvertSlices silently leaves every YUV tile unconverted and raises no
fatal invariant failure, whatever the external conversion routines are. -/
theorem convertSlices_unsupported_bpp_leaves_tiles {α : Type} (bpp : Nat)
    (argbToI420 rgb24ToI420 : α → α) (tiles : List α)
    (h32 : bpp ≠ 32) (h24 : bpp ≠ 24) :
    ConvertSlices bpp argbToI420 rgb24ToI420 tiles = (tiles, false) := by
  have hid : convertSliceTile bpp argbToI420 rgb24ToI420 = fun t => t := by
    funext t
    simp [convertSliceTile, h32, h24]
  simp [ConvertSlices, hid]

/-- Claim C4 (witness): at 16 bpp the tiles come back unchanged. -/
theorem convertSlices_unsupported_bpp_witness :
    (16 ≠ 32) ∧ (16 ≠ 24) ∧
    ConvertSlices 16 (fun t : Nat => t + 3) (fun t => t + 4) [7] = ([7], false) :=
  ⟨by decide, by decide,
    convertSlices_unsupported_bpp_leaves_tiles 16 _ _ [7] (by decide) (by decide)⟩

/-! ## Claim C9 -/

/-- Claim C9 (counterexample): calling Render with an empty partial list
on an encoder whose slice queue is non-empty still reaches
notify_all, because the wakeup is guarded only by the queue being
non-empty, regardless of where its slices came from.  So a wakeup does
occur for an empty partial list. -/
theorem render_empty_notifies_when_queue_nonempty :
    (Render c640 queuedState []).2.1 = true := by
  exact rfl

/-- Claim C9 (amended): Render with an empty partial list leaves the
whole encoder state unchanged, byte for byte and slice for slice, and
passes every bound check; the worker condition variable is notified
exactly when the slice queue was already non-empty (pending slices from
earlier calls make the existing notify-on-non-empty check fire). -/
theorem render_empty_list_noop (c : ScreenConfig) (s : EncoderState) :
    Render c s [] = (s, (!s.slices.isEmpty, true)) := by
  exact rfl

/-! ## CreateEncodeSlice characterization -/

/-- The conditional round-down in CreateEncodeSlice is alignDown. -/
theorem ite_round_down (a n : Nat) : (if n % a ≠ 0 then n - n % a else n) = alignDown a n := by
  unfold alignDown
  split <;> omega

/-- The conditional round-up in CreateEncodeSlice is alignUp. -/
theorem ite_round_up (a n : Nat) : (if n % a ≠ 0 then n + (a - n % a) else n) = alignUp a n := by
  unfold alignUp
  rcases Nat.decEq (n % a) 0 with h | h <;> simp [h]

/-- The conditional clamp in CreateEncodeSlice is min. -/
theorem ite_clamp (r w : Nat) : (if r > w then w else r) = min r w := by
  split <;> omega

/-- Closed form of CreateEncodeSlice in terms of the spec-side rounding
functions. -/
theorem createEncodeSlice_eq (c : ScreenConfig) (top left bottom right : Nat) :
    CreateEncodeSlice c top left bottom right =
      { x := alignDown 16 left, y := alignDown 2 top,
        width := min (alignUp 16 right) c.width - alignDown 16 left,
        height := min (alignUp 2 bottom) c.height - alignDown 2 top } := by
  simp only [CreateEncodeSlice, ite_round_down, ite_round_up, ite_clamp]

/-! ## Claim C7 -/

/-- The full-screen call made by Start yields exactly the full-screen
rectangle: the right edge either is already a multiple of 16 or rounds up
past the screen width and is clamped back, and likewise for the bottom. -/
theorem createEncodeSlice_full_screen (c : ScreenConfig) :
    CreateEncodeSlice c 0 0 c.height c.width =
      { x := 0, y := 0, width := c.width, height := c.height } := by
  simp only [CreateEncodeSlice, EncodeSlice.mk.injEq]
  split_ifs <;> omega

/-- Claim C7: Start installs the output callback, sets the started flag,
sets the force_keyframe flag, and appends exactly one slice covering the
full screen to the slice queue, for every screen with even dimensions. -/
theorem start_installs_and_queues_full_screen (c : ScreenConfig)
    (hw : c.width % 2 = 0) (hh : c.height % 2 = 0) (s : EncoderState) :
    (Start c s).started = true ∧ (Start c s).force_keyframe = true ∧
    (Start c s).callback_installed = true ∧
    (Start c s).slices = s.slices ++ [{ x := 0, y := 0, width := c.width, height := c.height }] := by
  refine ⟨rfl, rfl, rfl, ?_⟩
  simp [Start, createEncodeSlice_full_screen]

/-- Claim C7 (witness): Start on the 640x480 screen queues the slice
(0, 0, 640, 480). -/
theorem start_installs_witness :
    c640.width % 2 = 0 ∧ c640.height % 2 = 0 ∧
    ((Start c640 initState).started = true ∧ (Start c640 initState).force_keyframe = true ∧
     (Start c640 initState).callback_installed = true ∧
     (Start c640 initState).slices =
       initState.slices ++ [{ x := 0, y := 0, width := 640, height := 480 }]) :=
  ⟨by decide, by decide,
    start_installs_and_queues_full_screen c640 (by decide) (by decide) initState⟩

/-! ## Claim C5 -/

/-- Claim C5 (counterexample): for the partial x=5, y=3, w=10, h=5, the
slice queued by a started encoder is not the rectangle (0, 2, 16, 4) the
claim names: the bottom rounds up to 8 and the top down to 2, so the
height is 6, not 4. -/
theorem render_unaligned_example_height_six :
    (Render c640 startedState [p5]).1.slices ≠
      [{ x := 0, y := 2, width := 16, height := 4 }] := by
  decide

/-- Claim C5 (amended): the slice constructed for a partial rectangle has
left = x rounded down to a multiple of 16, right = x + w rounded up to a
multiple of 16 then clamped to the screen width, top = y rounded down to
a multiple of 2, bottom = y + h rounded up to a multiple of 2 then
clamped to the screen height; for the partial x=5, y=3, w=10, h=5 this
yields the slice x=0, y=2, width=16, height=6 (bottom 8, top 2). -/
theorem createEncodeSlice_matches_spec_alignment :
    (∀ (c : ScreenConfig) (x y w h : Nat),
      CreateEncodeSlice c y x (y + h) (x + w) = specAlignedSlice c x y w h) ∧
    (Render c640 startedState [p5]).1.slices = [{ x := 0, y := 2, width := 16, height := 6 }] := by
  constructor
  · intro c x y w h
    rw [createEncodeSlice_eq]
    rfl
  · decide

/-! ## Claim C8 -/

/-- Ticks of a started encoder whose force flag is clear submit auto
frames for the whole run. -/
theorem runTickTypes_all_auto (rets : List Int) (s : EncoderState)
    (hs : s.started = true) (hf : s.force_keyframe = false) :
    runTickTypes rets s = List.replicate rets.length FrameType.auto := by
  induction rets generalizing s with
  | nil => simp [runTickTypes]
  | cons r rest ih =>
      have hty := encodeProcessTick_auto r s hs hf
      have hst : ((EncodeProcessTick r s).1).started = true := by
        rw [(encodeProcessTick_preserves r s).1, hs]
      simp only [runTickTypes, hty.1, List.replicate, List.cons.injEq, true_and]
      exact ih _ hst hty.2

/-- Applying ForceKeyframe any positive number of times sets the flag. -/
theorem applyForceKeyframe_sets_flag (k : Nat) (hk : 1 ≤ k) (s : EncoderState) :
    (applyForceKeyframe k s).force_keyframe = true := by
  cases k with
  | zero => omega
  | succ n => rfl

/-- ForceKeyframe repetitions never change the started flag. -/
theorem applyForceKeyframe_started (k : Nat) (s : EncoderState) :
    (applyForceKeyframe k s).started = s.started := by
  induction k with
  | zero => rfl
  | succ n ih => simpa [applyForceKeyframe, ForceKeyframe] using ih

/-- Claim C8: any number k of ForceKeyframe calls before the next tick of
a started encoder results in exactly one keyframe-typed submission: the
first subsequent tick submits a keyframe and clears the flag, and every
later tick submits an auto-typed picture (until the flag is set again,
which in this run it is not). -/
theorem force_keyframe_single_keyframe (k : Nat) (hk : 1 ≤ k) (s : EncoderState)
    (hs : s.started = true) (rets : List Int) (hne : rets ≠ []) :
    runTickTypes rets (applyForceKeyframe k s) =
      FrameType.keyframe :: List.replicate (rets.length - 1) FrameType.auto := by
  cases rets with
  | nil => exact absurd rfl hne
  | cons r rest =>
      have hs1 : (applyForceKeyframe k s).started = true := by
        rw [applyForceKeyframe_started, hs]
      have hf1 : (applyForceKeyframe k s).force_keyframe = true :=
        applyForceKeyframe_sets_flag k hk s
      have hty := encodeProcessTick_keyframe r _ hs1 hf1
      have hst : ((EncodeProcessTick r (applyForceKeyframe k s)).1).started = true := by
        rw [(encodeProcessTick_preserves r _).1, hs1]
      simp only [runTickTypes, hty.1, List.length_cons, Nat.add_sub_cancel,
        List.cons.injEq, true_and]
      exact runTickTypes_all_auto rest _ hst hty.2

/-- Claim C8 (witness): two ForceKeyframe calls then three ticks give one
keyframe followed by two auto frames. -/
theorem force_keyframe_single_keyframe_witness :
    1 ≤ 2 ∧ startedState.started = true ∧ ([3, -1, 5] : List Int) ≠ [] ∧
    runTickTypes [3, -1, 5] (applyForceKeyframe 2 startedState) =
      FrameType.keyframe :: List.replicate 2 FrameType.auto :=
  ⟨by decide, rfl, by decide,
    force_keyframe_single_keyframe 2 (by decide) startedState rfl [3, -1, 5] (by decide)⟩

/-! ## Claim C2 -/

/-- Claim C2 (counterexample): on the even 24x16 screen, Start queues the
full-screen slice whose width 24 is not a multiple of 16 (the right edge
rounded up to 32 and was clamped back to the screen width 24), so not
every queued slice has width aligned to 16. -/
theorem start_on_24_wide_screen_queues_unaligned_width :
    (Start c24 initState).slices = [{ x := 0, y := 0, width := 24, height := 16 }] ∧
    ¬ (24 % 16 = 0) := by
  exact ⟨by decide, by decide⟩

/-- Any slice built by CreateEncodeSlice from an in-screen rectangle on a
screen of even height satisfies the amended alignment invariant. -/
theorem createEncodeSlice_aligned (c : ScreenConfig) (hh : c.height % 2 = 0)
    (top left bottom right : Nat) (htb : top ≤ bottom) (hb : bottom ≤ c.height)
    (hlr : left ≤ right) (hr : right ≤ c.width) :
    SliceAligned c (CreateEncodeSlice c top left bottom right) := by
  rw [createEncodeSlice_eq]
  unfold SliceAligned alignUp alignDown
  dsimp only
  split_ifs <;> omega

/-- One Render loop iteration only appends slices satisfying the amended
alignment invariant (when the partial is in bounds). -/
theorem renderStep_slices (c : ScreenConfig) (hh : c.height % 2 = 0)
    (acc : EncoderState × Bool) (p : DisplayPartialBitmap) (hp : PartialInBounds c p) :
    ∀ sl ∈ (RenderStep c acc p).1.slices, sl ∈ acc.1.slices ∨ SliceAligned c sl := by
  intro sl hsl
  obtain ⟨hx0, hy0, hxw, hyh⟩ := hp
  simp only [RenderStep] at hsl
  split at hsl
  · split at hsl
    · split at hsl
      · dsimp only at hsl
        rcases List.mem_append.mp hsl with h | h
        · exact Or.inl h
        · right
          rw [List.mem_singleton.mp h]
          exact createEncodeSlice_aligned c hh _ _ _ _
            (by omega) (by omega) (by omega) (by omega)
      · exact Or.inl hsl
    · exact Or.inl hsl
  · exact Or.inl hsl

/-- The Render fold preserves the alignment invariant of the queue. -/
theorem render_fold_slices_aligned (c : ScreenConfig) (hh : c.height % 2 = 0)
    (base : List EncodeSlice) :
    ∀ (ps : List DisplayPartialBitmap) (acc : EncoderState × Bool),
      (∀ p ∈ ps, PartialInBounds c p) →
      (∀ sl ∈ acc.1.slices, sl ∈ base ∨ SliceAligned c sl) →
      ∀ sl ∈ (List.foldl (RenderStep c) acc ps).1.slices, sl ∈ base ∨ SliceAligned c sl := by
  intro ps
  induction ps with
  | nil =>
      intro acc hps hacc
      simpa using hacc
  | cons p rest ih =>
      intro acc hps hacc
      rw [List.foldl_cons]
      apply ih
      · intro q hq
        exact hps q (List.mem_cons_of_mem _ hq)
      · intro sl hsl
        rcases renderStep_slices c hh acc p (hps p (List.mem_cons_self _ _)) sl hsl with h | h
        · exact hacc sl h
        · exact Or.inr h

/-- Claim C2 (amended): every slice ever appended to the queue, whether by
Start or by Render on in-bounds partials of a screen with even height, has
x a multiple of 16, y and height multiples of 2, lies fully within the
screen, and has width a multiple of 16 unless its right edge was clamped
to the screen width (x + width = screen width); on screens whose width is
not a multiple of 16 the clamped case does occur, so width alignment alone
does not hold in general. -/
theorem queued_slices_aligned (c : ScreenConfig) (hh : c.height % 2 = 0)
    (s : EncoderState) (ps : List DisplayPartialBitmap)
    (hps : ∀ p ∈ ps, PartialInBounds c p) :
    (∀ sl ∈ (Render c s ps).1.slices, sl ∈ s.slices ∨ SliceAligned c sl) ∧
    (∀ sl ∈ (Start c s).slices, sl ∈ s.slices ∨ SliceAligned c sl) := by
  constructor
  · intro sl hsl
    exact render_fold_slices_aligned c hh s.slices ps (s, true) hps
      (fun q hq => Or.inl hq) sl hsl
  · intro sl hsl
    unfold Start at hsl
    dsimp only at hsl
    rcases List.mem_append.mp hsl with h | h
    · exact Or.inl h
    · right
      rw [List.mem_singleton.mp h]
      exact createEncodeSlice_aligned c hh 0 0 c.height c.width
        (Nat.zero_le _) (Nat.le_refl _) (Nat.zero_le _) (Nat.le_refl _)

/-- Claim C2 (witness): the invariant holds for the scenario-3 partial on
the 640x480 screen. -/
theorem queued_slices_aligned_witness :
    c640.height % 2 = 0 ∧ (∀ p ∈ [p5], PartialInBounds c640 p) ∧
    ((∀ sl ∈ (Render c640 startedState [p5]).1.slices,
        sl ∈ startedState.slices ∨ SliceAligned c640 sl) ∧
     (∀ sl ∈ (Start c640 startedState).slices,
        sl ∈ startedState.slices ∨ SliceAligned c640 sl)) :=
  ⟨by decide, by decide,
    queued_slices_aligned c640 (by decide) startedState [p5] (by decide)⟩

/-! ## Claim C10 -/

/-- Claim C10: the blit bound assertion checks only the upper end of each
row write.  For the flipped partial p10, whose computed start row
y + height - 1 = -3 precedes the buffer, every per-row check
dst + linesize <= dst_end passes (ok stays true, so no fatal invariant
break is raised), yet the blit writes the source bytes at negative byte
offsets, outside the screen bitmap: offset -24 receives byte 7. -/
theorem flipped_blit_below_buffer_unchecked :
    (RenderPartialBitmap c10c (fun _ => 0) p10).ok = true ∧
    (RenderPartialBitmap c10c (fun _ => 0) p10).mem (-24) = 7 ∧
    ((-24 : Int) < 0) := by
  exact ⟨by decide, by decide, by decide⟩

/-! ## Claim C6: blit correctness -/

/-- getD distributes over append below the first list length. -/
theorem getD_append_left {α : Type} (l1 l2 : List α) (i : Nat) (h : i < l1.length) (d : α) :
    (l1 ++ l2).getD i d = l1.getD i d := by
  simp [List.getD_eq_getElem?_getD, List.getElem?_append, h]

/-- getD distributes over append above the first list length. -/
theorem getD_append_add {α : Type} (l1 l2 : List α) (i : Nat) (d : α) :
    (l1 ++ l2).getD (l1.length + i) d = l2.getD i d := by
  rw [List.getD_eq_getElem?_getD, List.getD_eq_getElem?_getD, List.getElem?_append,
    if_neg (by omega)]
  simp

/-- Reading inside the freshly copied row. -/
theorem writeRow_hit (mem : Int → Nat) (dst : Int) (seg : List Nat) (srcOff len : Nat)
    (u : Nat) (hu : u < len) :
    writeRow mem dst seg srcOff len (dst + u) = seg.getD (srcOff + u) 0 := by
  unfold writeRow
  rw [if_pos ⟨by omega, by omega⟩]
  congr 1
  omega

/-- Reading outside the freshly copied row. -/
theorem writeRow_miss (mem : Int → Nat) (dst : Int) (seg : List Nat) (srcOff len : Nat)
    (a : Int) (ha : a < dst ∨ dst + (len : Int) ≤ a) :
    writeRow mem dst seg srcOff len a = mem a := by
  unfold writeRow
  rw [if_neg]
  omega

/-- With a forward destination stride, the row loop never writes below the
initial cursor. -/
theorem blitRows_frame_lo (dstStride dstEnd : Int) (ls stride : Nat) (seg : List Nat)
    (hS : 0 ≤ dstStride) :
    ∀ (n srcOff : Nat) (mem : Int → Nat) (dst : Int) (lines : Nat) (a : Int), a < dst →
      (blitRows dstStride dstEnd ls stride seg n srcOff mem dst lines).mem a = mem a := by
  intro n
  induction n with
  | zero => intro srcOff mem dst lines a ha; rfl
  | succ n ih =>
      intro srcOff mem dst lines a ha
      cases lines with
      | zero => rfl
      | succ l =>
          simp only [blitRows]
          split
          · rw [ih _ _ _ _ _ (by omega)]
            exact writeRow_miss _ _ _ _ _ _ (Or.inl ha)
          · rfl

/-- With a backward destination stride, the row loop never writes at or
above the first row end. -/
theorem blitRows_frame_hi (dstStride dstEnd : Int) (ls stride : Nat) (seg : List Nat)
    (hS : dstStride ≤ 0) :
    ∀ (n srcOff : Nat) (mem : Int → Nat) (dst : Int) (lines : Nat) (a : Int),
      dst + (ls : Int) ≤ a →
      (blitRows dstStride dstEnd ls stride seg n srcOff mem dst lines).mem a = mem a := by
  intro n
  induction n with
  | zero => intro srcOff mem dst lines a ha; rfl
  | succ n ih =>
      intro srcOff mem dst lines a ha
      cases lines with
      | zero => rfl
      | succ l =>
          simp only [blitRows]
          split
          · rw [ih _ _ _ _ _ (by omega)]
            exact writeRow_miss _ _ _ _ _ _ (Or.inr ha)
          · rfl

/-- With a forward stride the destination cursor only moves forward. -/
theorem blitRows_dst_mono (dstStride dstEnd : Int) (ls stride : Nat) (seg : List Nat)
    (hS : 0 ≤ dstStride) :
    ∀ (n srcOff : Nat) (mem : Int → Nat) (dst : Int) (lines : Nat),
      dst ≤ (blitRows dstStride dstEnd ls stride seg n srcOff mem dst lines).dst := by
  intro n
  induction n with
  | zero => intro srcOff mem dst lines; exact le_refl _
  | succ n ih =>
      intro srcOff mem dst lines
      cases lines with
      | zero => exact le_refl _
      | succ l =>
          simp only [blitRows]
          split
          · exact le_trans (by omega) (ih _ _ _ _)
          · exact le_refl _

/-- With a backward stride the destination cursor only moves backward. -/
theorem blitRows_dst_anti (dstStride dstEnd : Int) (ls stride : Nat) (seg : List Nat)
    (hS : dstStride ≤ 0) :
    ∀ (n srcOff : Nat) (mem : Int → Nat) (dst : Int) (lines : Nat),
      (blitRows dstStride dstEnd ls stride seg n srcOff mem dst lines).dst ≤ dst := by
  intro n
  induction n with
  | zero => intro srcOff mem dst lines; exact le_refl _
  | succ n ih =>
      intro srcOff mem dst lines
      cases lines with
      | zero => exact le_refl _
      | succ l =>
          simp only [blitRows]
          split
          · exact le_trans (ih _ _ _ _) (by omega)
          · exact le_refl _

/-- When every per-row bound check passes, the row loop copies exactly
min(copyLines, lines) rows: it reports ok, moves the cursor that many
strides, and decrements the line budget accordingly. -/
theorem blitRows_run (dstStride dstEnd : Int) (ls stride : Nat) (seg : List Nat) :
    ∀ (n srcOff : Nat) (mem : Int → Nat) (dst : Int) (lines : Nat),
      (∀ i : Nat, i < min n lines → dst + (i : Int) * dstStride + (ls : Int) ≤ dstEnd) →
      (blitRows dstStride dstEnd ls stride seg n srcOff mem dst lines).ok = true ∧
      (blitRows dstStride dstEnd ls stride seg n srcOff mem dst lines).dst
        = dst + ((min n lines : Nat) : Int) * dstStride ∧
      (blitRows dstStride dstEnd ls stride seg n srcOff mem dst lines).lines
        = lines - min n lines := by
  intro n
  induction n with
  | zero =>
      intro srcOff mem dst lines hok
      refine ⟨rfl, by simp [blitRows], by simp [blitRows]⟩
  | succ n ih =>
      intro srcOff mem dst lines hok
      cases lines with
      | zero => refine ⟨rfl, by simp [blitRows], by simp [blitRows]⟩
      | succ l =>
          have h0 : dst + (ls : Int) ≤ dstEnd := by
            have := hok 0 (by omega)
            simpa using this
          simp only [blitRows]
          rw [if_pos h0]
          obtain ⟨iok, idst, ilines⟩ :=
            ih (srcOff + stride) (writeRow mem dst seg srcOff ls) (dst + dstStride) l
              (fun i hi => by
                have hh := hok (i + 1) (by omega)
                push_cast at hh ⊢
                linarith)
          refine ⟨iok, ?_, ?_⟩
          · rw [idst]
            have hmin : min (n + 1) (l + 1) = min n l + 1 := by omega
            rw [hmin]
            push_cast
            ring
          · rw [ilines]
            omega

/-- When every per-row bound check passes and consecutive rows do not
overlap, row j of the copied block holds the source bytes of row j of the
segment (at source offset srcOff + j stride). -/
theorem blitRows_read (dstStride dstEnd : Int) (ls stride : Nat) (seg : List Nat)
    (hsep : (ls : Int) ≤ dstStride ∨ dstStride + (ls : Int) ≤ 0) :
    ∀ (n srcOff : Nat) (mem : Int → Nat) (dst : Int) (lines : Nat),
      (∀ i : Nat, i < min n lines → dst + (i : Int) * dstStride + (ls : Int) ≤ dstEnd) →
      ∀ j : Nat, j < min n lines → ∀ u : Nat, u < ls →
        (blitRows dstStride dstEnd ls stride seg n srcOff mem dst lines).mem
            (dst + (j : Int) * dstStride + (u : Int))
          = seg.getD (srcOff + j * stride + u) 0 := by
  intro n
  induction n with
  | zero =>
      intro srcOff mem dst lines hok j hj u hu
      exact absurd hj (by omega)
  | succ n ih =>
      intro srcOff mem dst lines hok j hj u hu
      cases lines with
      | zero => exact absurd hj (by omega)
      | succ l =>
          have h0 : dst + (ls : Int) ≤ dstEnd := by
            have := hok 0 (by omega)
            simpa using this
          simp only [blitRows]
          rw [if_pos h0]
          cases j with
          | zero =>
              have haddr : dst + ((0 : Nat) : Int) * dstStride + (u : Int) = dst + (u : Int) := by
                push_cast
                ring
              rw [haddr]
              have hfr :
                  (blitRows dstStride dstEnd ls stride seg n (srcOff + stride)
                      (writeRow mem dst seg srcOff ls) (dst + dstStride) l).mem (dst + (u : Int))
                    = writeRow mem dst seg srcOff ls (dst + (u : Int)) := by
                rcases hsep with hpos | hneg
                · exact blitRows_frame_lo dstStride dstEnd ls stride seg (by omega)
                    n (srcOff + stride) _ (dst + dstStride) l _ (by omega)
                · exact blitRows_frame_hi dstStride dstEnd ls stride seg (by omega)
                    n (srcOff + stride) _ (dst + dstStride) l _ (by omega)
              rw [hfr, writeRow_hit mem dst seg srcOff ls u hu]
              congr 1
              omega
          | succ j =>
              have haddr : dst + ((j + 1 : Nat) : Int) * dstStride + (u : Int)
                  = (dst + dstStride) + (j : Int) * dstStride + (u : Int) := by
                push_cast
                ring
              rw [haddr]
              have hrec := ih (srcOff + stride) (writeRow mem dst seg srcOff ls)
                (dst + dstStride) l
                (fun i hi => by
                  have hh := hok (i + 1) (by omega)
                  push_cast at hh ⊢
                  linarith)
                j (by omega) u hu
              rw [hrec]
              congr 1
              ring

/-- Unfolding equation for one segment of the outer loop when rows
remain. -/
theorem blitSegs_cons_ne (dstStride dstEnd : Int) (ls stride : Nat) (seg : List Nat)
    (rest : List (List Nat)) (mem : Int → Nat) (dst : Int) (lines : Nat) (hl : lines ≠ 0) :
    blitSegs dstStride dstEnd ls stride (seg :: rest) mem dst lines =
      (if (blitRows dstStride dstEnd ls stride seg (seg.length / stride) 0 mem dst lines).ok then
        blitSegs dstStride dstEnd ls stride rest
          (blitRows dstStride dstEnd ls stride seg (seg.length / stride) 0 mem dst lines).mem
          (blitRows dstStride dstEnd ls stride seg (seg.length / stride) 0 mem dst lines).dst
          (blitRows dstStride dstEnd ls stride seg (seg.length / stride) 0 mem dst lines).lines
      else blitRows dstStride dstEnd ls stride seg (seg.length / stride) 0 mem dst lines) := by
  simp only [blitSegs, if_neg hl]

/-- With a forward destination stride, the segment loop never writes below
the initial cursor. -/
theorem blitSegs_frame_lo (dstStride dstEnd : Int) (ls stride : Nat) (hS : 0 ≤ dstStride) :
    ∀ (segs : List (List Nat)) (mem : Int → Nat) (dst : Int) (lines : Nat) (a : Int), a < dst →
      (blitSegs dstStride dstEnd ls stride segs mem dst lines).mem a = mem a := by
  intro segs
  induction segs with
  | nil => intro mem dst lines a ha; rfl
  | cons seg rest ih =>
      intro mem dst lines a ha
      by_cases hl : lines = 0
      · subst hl; rfl
      · rw [blitSegs_cons_ne dstStride dstEnd ls stride seg rest mem dst lines hl]
        split
        · rw [ih _ _ _ _ (lt_of_lt_of_le ha
            (blitRows_dst_mono dstStride dstEnd ls stride seg hS _ _ _ _ _))]
          exact blitRows_frame_lo dstStride dstEnd ls stride seg hS _ _ _ _ _ _ ha
        · exact blitRows_frame_lo dstStride dstEnd ls stride seg hS _ _ _ _ _ _ ha

/-- With a backward destination stride, the segment loop never writes at
or above the first row end. -/
theorem blitSegs_frame_hi (dstStride dstEnd : Int) (ls stride : Nat) (hS : dstStride ≤ 0) :
    ∀ (segs : List (List Nat)) (mem : Int → Nat) (dst : Int) (lines : Nat) (a : Int),
      dst + (ls : Int) ≤ a →
      (blitSegs dstStride dstEnd ls stride segs mem dst lines).mem a = mem a := by
  intro segs
  induction segs with
  | nil => intro mem dst lines a ha; rfl
  | cons seg rest ih =>
      intro mem dst lines a ha
      by_cases hl : lines = 0
      · subst hl; rfl
      · rw [blitSegs_cons_ne dstStride dstEnd ls stride seg rest mem dst lines hl]
        split
        · rw [ih _ _ _ _ (le_trans (add_le_add_right
            (blitRows_dst_anti dstStride dstEnd ls stride seg hS _ _ _ _ _) _) ha)]
          exact blitRows_frame_hi dstStride dstEnd ls stride seg hS _ _ _ _ _ _ ha
        · exact blitRows_frame_hi dstStride dstEnd ls stride seg hS _ _ _ _ _ _ ha

/-- The segment walk of RenderPartial: when every segment length is a
multiple of the source stride, the per-row copy length does not exceed the
source stride, rows do not overlap, and every needed per-row bound check
passes, then all checks pass and destination row j holds the bytes of
source row j of the concatenated segment list. -/
theorem blitSegs_read (dstStride dstEnd : Int) (ls stride : Nat)
    (hstride : 0 < stride) (hls : ls ≤ stride)
    (hsep : (ls : Int) ≤ dstStride ∨ dstStride + (ls : Int) ≤ 0) :
    ∀ (segs : List (List Nat)) (mem : Int → Nat) (dst : Int) (lines : Nat),
      (∀ seg ∈ segs, stride ∣ seg.length) →
      (∀ i : Nat, i < min lines (rowsOf stride segs) →
        dst + (i : Int) * dstStride + (ls : Int) ≤ dstEnd) →
      (blitSegs dstStride dstEnd ls stride segs mem dst lines).ok = true ∧
      ∀ j : Nat, j < min lines (rowsOf stride segs) → ∀ u : Nat, u < ls →
        (blitSegs dstStride dstEnd ls stride segs mem dst lines).mem
            (dst + (j : Int) * dstStride + (u : Int))
          = (segs.flatten).getD (j * stride + u) 0 := by
  intro segs
  induction segs with
  | nil =>
      intro mem dst lines hdiv hok
      refine ⟨rfl, ?_⟩
      intro j hj u hu
      exact absurd hj (by simp [rowsOf])
  | cons seg rest ih =>
      intro mem dst lines hdiv hok
      by_cases hl : lines = 0
      · subst hl
        refine ⟨rfl, ?_⟩
        intro j hj u hu
        exact absurd hj (by omega)
      · have hcl : rowsOf stride (seg :: rest) = seg.length / stride + rowsOf stride rest := by
          simp [rowsOf]
        simp only [hcl] at hok ⊢
        set cl := seg.length / stride with hcl_def
        have hlen : seg.length = cl * stride := by
          rw [hcl_def]
          exact (Nat.div_mul_cancel (hdiv seg (List.mem_cons_self _ _))).symm
        set m := min cl lines with hm_def
        have hokRows : ∀ i : Nat, i < min cl lines →
            dst + (i : Int) * dstStride + (ls : Int) ≤ dstEnd := by
          intro i hi
          exact hok i (by omega)
        obtain ⟨rok, rdst, rlines⟩ := blitRows_run dstStride dstEnd ls stride seg cl 0 mem dst lines hokRows
        rw [blitSegs_cons_ne dstStride dstEnd ls stride seg rest mem dst lines hl, if_pos rok]
        have hok2 : ∀ i : Nat, i < min (lines - m) (rowsOf stride rest) →
            (dst + (m : Int) * dstStride) + (i : Int) * dstStride + (ls : Int) ≤ dstEnd := by
          intro i hi
          have hh := hok (m + i) (by omega)
          push_cast at hh ⊢
          linarith
        obtain ⟨ok2, reads2⟩ := ih
          (blitRows dstStride dstEnd ls stride seg cl 0 mem dst lines).mem
          (blitRows dstStride dstEnd ls stride seg cl 0 mem dst lines).dst
          (blitRows dstStride dstEnd ls stride seg cl 0 mem dst lines).lines
          (fun sg hsg => hdiv sg (List.mem_cons_of_mem _ hsg))
          (by rw [rdst, rlines]; exact hok2)
        refine ⟨ok2, ?_⟩
        intro j hj u hu
        by_cases hjm : j < m
        · -- the row lies in the first segment
          have hval := blitRows_read dstStride dstEnd ls stride seg hsep cl 0 mem dst lines
            hokRows j (by omega) u hu
          have hpres :
              (blitSegs dstStride dstEnd ls stride rest
                  (blitRows dstStride dstEnd ls stride seg cl 0 mem dst lines).mem
                  (blitRows dstStride dstEnd ls stride seg cl 0 mem dst lines).dst
                  (blitRows dstStride dstEnd ls stride seg cl 0 mem dst lines).lines).mem
                  (dst + (j : Int) * dstStride + (u : Int))
                = (blitRows dstStride dstEnd ls stride seg cl 0 mem dst lines).mem
                    (dst + (j : Int) * dstStride + (u : Int)) := by
            rcases hsep with hpos | hneg
            · apply blitSegs_frame_lo dstStride dstEnd ls stride (by omega)
              rw [rdst]
              have hj1 : (j : Int) + 1 ≤ (m : Int) := by omega
              have h1 : ((j : Int) + 1) * dstStride ≤ (m : Int) * dstStride :=
                mul_le_mul_of_nonneg_right hj1 (by omega)
              have h2 : (u : Int) < (ls : Int) := by omega
              nlinarith
            · apply blitSegs_frame_hi dstStride dstEnd ls stride (by omega)
              rw [rdst]
              have hj1 : (j : Int) + 1 ≤ (m : Int) := by omega
              have h1 : (m : Int) * dstStride ≤ ((j : Int) + 1) * dstStride :=
                mul_le_mul_of_nonpos_right hj1 (by omega)
              have h2 : (0 : Int) ≤ (u : Int) := by omega
              nlinarith
          rw [hpres, hval, List.flatten_cons]
          have hidx : j * stride + u < seg.length := by
            rw [hlen]
            have hmul : (j + 1) * stride ≤ cl * stride := Nat.mul_le_mul_right _ (by omega)
            calc j * stride + u < j * stride + stride := by omega
            _ = (j + 1) * stride := by ring
            _ ≤ cl * stride := hmul
          rw [getD_append_left _ _ _ hidx]
          congr 1
          omega
        · -- the row lies in a later segment
          have hmle : m ≤ j := by omega
          have hmcl : m = cl := by omega
          have hrec := reads2 (j - m) (by rw [rlines]; omega) u hu
          have haddr :
              (blitRows dstStride dstEnd ls stride seg cl 0 mem dst lines).dst
                  + ((j - m : Nat) : Int) * dstStride + (u : Int)
                = dst + (j : Int) * dstStride + (u : Int) := by
            rw [rdst]
            have hsub : ((j - m : Nat) : Int) = (j : Int) - (m : Int) := by omega
            rw [hsub]
            ring
          rw [← haddr, hrec, List.flatten_cons]
          have hidx2 : j * stride + u = seg.length + ((j - m) * stride + u) := by
            rw [hlen]
            have h3 : (j - m) + m = j := Nat.sub_add_cancel hmle
            calc j * stride + u = ((j - m) + m) * stride + u := by rw [h3]
            _ = m * stride + ((j - m) * stride + u) := by ring
            _ = cl * stride + ((j - m) * stride + u) := by rw [hmcl]
          rw [hidx2, getD_append_add]

/-- RenderPartial on an in-bounds partial whose segments are whole rows:
every bound check passes and destination row dstRow(v) holds source row v
of the concatenated segments. -/
theorem renderPartialBitmap_read (c : ScreenConfig) (mem : Int → Nat) (p : DisplayPartialBitmap)
    (hstride : 0 < p.stride)
    (hy0 : 0 ≤ p.y) (hyh : p.y + (p.height : Int) ≤ (c.height : Int))
    (hx0 : 0 ≤ p.x)
    (hrow : p.x * ((c.bpp >>> 3 : Nat) : Int) + ((p.width * (c.bpp >>> 3) : Nat) : Int)
      ≤ (c.stride : Int))
    (hls : p.width * (c.bpp >>> 3) ≤ p.stride)
    (hdiv : ∀ seg ∈ p.vector, p.stride ∣ seg.length)
    (hrows : p.height ≤ rowsOf p.stride p.vector) :
    (RenderPartialBitmap c mem p).ok = true ∧
    ∀ v : Nat, v < p.height → ∀ u : Nat, u < p.width * (c.bpp >>> 3) →
      (RenderPartialBitmap c mem p).mem
          ((c.stride : Int) * dstRow p v + p.x * ((c.bpp >>> 3 : Nat) : Int) + (u : Int))
        = (p.vector.flatten).getD (v * p.stride + u) 0 := by
  have hxb : (0 : Int) ≤ p.x * ((c.bpp >>> 3 : Nat) : Int) :=
    mul_nonneg hx0 (Int.ofNat_nonneg _)
  have hlsS : ((p.width * (c.bpp >>> 3) : Nat) : Int) ≤ (c.stride : Int) := by linarith
  have hend : ((c.stride * c.height : Nat) : Int) = (c.stride : Int) * (c.height : Int) := by
    push_cast
    ring
  cases hf : p.flip with
  | false =>
      have hsep : ((p.width * (c.bpp >>> 3) : Nat) : Int) ≤ (c.stride : Int) ∨
          (c.stride : Int) + ((p.width * (c.bpp >>> 3) : Nat) : Int) ≤ 0 := Or.inl hlsS
      have hok : ∀ i : Nat,
          i < min p.height (rowsOf p.stride p.vector) →
          ((c.stride : Int) * p.y + p.x * ((c.bpp >>> 3 : Nat) : Int))
              + (i : Int) * (c.stride : Int) + ((p.width * (c.bpp >>> 3) : Nat) : Int)
            ≤ ((c.stride * c.height : Nat) : Int) := by
        intro i hi
        rw [hend]
        have hy1 : p.y + (i : Int) + 1 ≤ (c.height : Int) := by omega
        have h2 : (c.stride : Int) * (p.y + (i : Int) + 1)
            ≤ (c.stride : Int) * (c.height : Int) :=
          mul_le_mul_of_nonneg_left hy1 (Int.ofNat_nonneg _)
        nlinarith
      obtain ⟨hok', reads⟩ := blitSegs_read (c.stride : Int) ((c.stride * c.height : Nat) : Int)
        (p.width * (c.bpp >>> 3)) p.stride hstride hls hsep p.vector mem
        ((c.stride : Int) * p.y + p.x * ((c.bpp >>> 3 : Nat) : Int)) p.height hdiv hok
      constructor
      · simpa [RenderPartialBitmap, hf] using hok'
      · intro v hv u hu
        have h := reads v (by omega) u hu
        have haddr : ((c.stride : Int) * p.y + p.x * ((c.bpp >>> 3 : Nat) : Int))
              + (v : Int) * (c.stride : Int) + (u : Int)
            = (c.stride : Int) * dstRow p v + p.x * ((c.bpp >>> 3 : Nat) : Int) + (u : Int) := by
          simp only [dstRow, hf]
          push_cast
          ring
        rw [haddr] at h
        simpa [RenderPartialBitmap, hf] using h
  | true =>
      have hsep : ((p.width * (c.bpp >>> 3) : Nat) : Int) ≤ -(c.stride : Int) ∨
          -(c.stride : Int) + ((p.width * (c.bpp >>> 3) : Nat) : Int) ≤ 0 := by
        right
        linarith
      have hok : ∀ i : Nat,
          i < min p.height (rowsOf p.stride p.vector) →
          ((c.stride : Int) * (p.y + (p.height : Int) - 1) + p.x * ((c.bpp >>> 3 : Nat) : Int))
              + (i : Int) * (-(c.stride : Int)) + ((p.width * (c.bpp >>> 3) : Nat) : Int)
            ≤ ((c.stride * c.height : Nat) : Int) := by
        intro i hi
        rw [hend]
        have hy2 : p.y + (p.height : Int) - (i : Int) ≤ (c.height : Int) := by omega
        have h2 : (c.stride : Int) * (p.y + (p.height : Int) - (i : Int))
            ≤ (c.stride : Int) * (c.height : Int) :=
          mul_le_mul_of_nonneg_left hy2 (Int.ofNat_nonneg _)
        have hrow2 := hrow
        push_cast at hrow2 ⊢
        nlinarith [h2, hrow2]
      obtain ⟨hok', reads⟩ := blitSegs_read (-(c.stride : Int)) ((c.stride * c.height : Nat) : Int)
        (p.width * (c.bpp >>> 3)) p.stride hstride hls hsep p.vector mem
        ((c.stride : Int) * (p.y + (p.height : Int) - 1) + p.x * ((c.bpp >>> 3 : Nat) : Int))
        p.height hdiv hok
      constructor
      · simpa [RenderPartialBitmap, hf] using hok'
      · intro v hv u hu
        have h := reads v (by omega) u hu
        have haddr : ((c.stride : Int) * (p.y + (p.height : Int) - 1)
                + p.x * ((c.bpp >>> 3 : Nat) : Int))
              + (v : Int) * (-(c.stride : Int)) + (u : Int)
            = (c.stride : Int) * dstRow p v + p.x * ((c.bpp >>> 3 : Nat) : Int) + (u : Int) := by
          simp only [dstRow, hf]
          push_cast
          ring
        rw [haddr] at h
        simpa [RenderPartialBitmap, hf] using h

/-- A single-partial Render whose blit passes every bound check does not
abort and leaves exactly the blitted memory in the state. -/
theorem render_single_step (c : ScreenConfig) (s : EncoderState) (p : DisplayPartialBitmap)
    (hok : (RenderPartialBitmap c s.mem p).ok = true) :
    (Render c s [p]).2.2 = true ∧
    (Render c s [p]).1.mem = (RenderPartialBitmap c s.mem p).mem := by
  by_cases hst : s.started <;>
    simp [Render, RenderStep, hok, hst]

/-- Claim C6: for every in-bounds partial P whose segment lengths are
multiples of the source stride and whose segments supply at least P.height
rows (with per-row byte count at most both strides, as the data model
requires), after render returns every byte of the rectangle equals the
corresponding source byte of the concatenated segment rows: destination
row dstRow(P, v) (that is, P.y + v when flip is unset and
P.y + P.height - 1 - v when flip is set) at byte column
P.x bytes-per-pixel + u holds byte u of source row v, and no blit bound
check fails. -/
theorem render_blit_pixels_match_source (c : ScreenConfig) (s : EncoderState)
    (p : DisplayPartialBitmap)
    (hstride : 0 < p.stride)
    (hy0 : 0 ≤ p.y) (hyh : p.y + (p.height : Int) ≤ (c.height : Int))
    (hx0 : 0 ≤ p.x)
    (hrow : p.x * ((c.bpp >>> 3 : Nat) : Int) + ((p.width * (c.bpp >>> 3) : Nat) : Int)
      ≤ (c.stride : Int))
    (hls : p.width * (c.bpp >>> 3) ≤ p.stride)
    (hdiv : ∀ seg ∈ p.vector, p.stride ∣ seg.length)
    (hrows : p.height ≤ rowsOf p.stride p.vector) :
    (Render c s [p]).2.2 = true ∧
    ∀ v : Nat, v < p.height → ∀ u : Nat, u < p.width * (c.bpp >>> 3) →
      (Render c s [p]).1.mem
          ((c.stride : Int) * dstRow p v + p.x * ((c.bpp >>> 3 : Nat) : Int) + (u : Int))
        = (p.vector.flatten).getD (v * p.stride + u) 0 := by
  obtain ⟨hok, hreads⟩ :=
    renderPartialBitmap_read c s.mem p hstride hy0 hyh hx0 hrow hls hdiv hrows
  obtain ⟨h1, h2⟩ := render_single_step c s p hok
  refine ⟨h1, ?_⟩
  intro v hv u hu
  rw [h2]
  exact hreads v hv u hu

/-- Claim C6 (witness): the 2x2 partial p6 at pixel (1, 1) of the 4x4
screen lands its sixteen source bytes at the expected offsets. -/
theorem render_blit_pixels_match_source_witness :
    (0 < p6.stride ∧ 0 ≤ p6.y ∧ p6.y + (p6.height : Int) ≤ (c6c.height : Int) ∧ 0 ≤ p6.x ∧
     p6.x * ((c6c.bpp >>> 3 : Nat) : Int) + ((p6.width * (c6c.bpp >>> 3) : Nat) : Int)
       ≤ (c6c.stride : Int) ∧
     p6.width * (c6c.bpp >>> 3) ≤ p6.stride ∧ (∀ seg ∈ p6.vector, p6.stride ∣ seg.length) ∧
     p6.height ≤ rowsOf p6.stride p6.vector) ∧
    ((Render c6c startedState [p6]).2.2 = true ∧
     ∀ v : Nat, v < p6.height → ∀ u : Nat, u < p6.width * (c6c.bpp >>> 3) →
       (Render c6c startedState [p6]).1.mem
           ((c6c.stride : Int) * dstRow p6 v + p6.x * ((c6c.bpp >>> 3 : Nat) : Int) + (u : Int))
         = (p6.vector.flatten).getD (v * p6.stride + u) 0) :=
  ⟨⟨by decide, by decide, by decide, by decide, by decide, by decide, by decide, by decide⟩,
   render_blit_pixels_match_source c6c startedState p6 (by decide) (by decide) (by decide)
     (by decide) (by decide) (by decide) (by decide) (by decide)⟩
